import Mathlib

/-!
# learn-nats: a shallow embedding of the chat server and client

The development follows the two Go programs of the repository:

* `client/main.go`: `parseInput`, which splits a console line of the form
  `id=12 msg=hello world` into a recipient id and a message body;
* `server/main.go`: the `server` with its presence registry `UserList`, the
  `connections` table, `Send` (the router), the parts of `Subscribe` (the
  session lifecycle) and the relay subscription handler of `main`.

Go strings are byte sequences, so a string is a list of byte values.  Go's
run-time panics and `log.Fatal` are explicit results.
-/

namespace LearnNats

/-! ## Go strings -/

/-- A Go `string`: an immutable sequence of bytes, each element one byte value. -/
abbrev GoString := List Nat

/-- The bytes (UTF-8) of a string literal. -/
def bytes (s : String) : GoString := s.toUTF8.data.toList.map UInt8.toNat

/-- Scan of `strings.Index`: the position of the first suffix of the text that
starts with `substr`, counted from `i`, or `-1`. -/
def indexFrom (substr : GoString) : GoString → Nat → Int
  | [], i => if substr.isPrefixOf [] then (i : Int) else -1
  | c :: cs, i =>
    if substr.isPrefixOf (c :: cs) then (i : Int) else indexFrom substr cs (i + 1)

/-- Go `strings.Index(s, substr)`: index of the first instance of `substr` in
`s`, or `-1` if `substr` is not present. -/
def Index (s substr : GoString) : Int := indexFrom substr s 0

/-- Go slice expression `s[lo:hi]` on a string: it panics (`none`) unless
`0 ≤ lo ≤ hi ≤ len(s)`. -/
def slice (s : GoString) (lo hi : Int) : Option GoString :=
  if 0 ≤ lo ∧ lo ≤ hi ∧ hi ≤ (s.length : Int) then
    some ((s.drop lo.toNat).take (hi - lo).toNat)
  else none

/-- Go slice expression `s[lo:]`, that is `s[lo:len(s)]`. -/
def sliceFrom (s : GoString) (lo : Int) : Option GoString :=
  slice s lo (s.length : Int)

/-! ## Machine integers -/

/-- Conversion to `int32`: the low 32 bits, read as a signed number. -/
def toInt32 (x : Int) : Int := (x + 2 ^ 31) % 2 ^ 32 - 2 ^ 31

/-- Conversion to `int64`: the low 64 bits, read as a signed number. -/
def toInt64 (x : Int) : Int := (x + 2 ^ 63) % 2 ^ 64 - 2 ^ 63

/-! ## `strconv.ParseInt(s, 10, 64)` -/

/-- The `Err` field of a `*strconv.NumError`. -/
inductive NumErr where
  | ErrSyntax
  | ErrRange
  deriving DecidableEq

/-- The constant `maxUint64` of `strconv`. -/
def maxUint64 : Nat := 2 ^ 64 - 1

/-- The `cutoff` of `ParseUint` for base 10: the smallest number such that
`cutoff * 10 > maxUint64`. -/
def uintCutoff : Nat := maxUint64 / 10 + 1

/-- The helper `lower(c)` of `strconv`: `c | ('x' - 'X')`. -/
def lower (c : Nat) : Nat := c ||| 32

/-- The digit value `ParseUint` gives a byte, before the comparison with the
base (`none` is the `default:` branch of its `switch`; the underscore branch
needs base 0 and is never taken for base 10). -/
def digitVal (c : Nat) : Option Nat :=
  if 48 ≤ c ∧ c ≤ 57 then some (c - 48)
  else if 97 ≤ lower c ∧ lower c ≤ 122 then some (lower c - 97 + 10)
  else none

/-- The loop of `ParseUint(s, 10, 64)` over the bytes of `s`, with the
accumulator `n` (a `uint64`). -/
def parseUintLoop : GoString → Nat → Nat × Option NumErr
  | [], n => (n, none)
  | c :: cs, n =>
    match digitVal c with
    | none => (0, some NumErr.ErrSyntax)
    | some d =>
      if d ≥ 10 then (0, some NumErr.ErrSyntax)
      else if n ≥ uintCutoff then (maxUint64, some NumErr.ErrRange)
      else
        let n10 := (n * 10) % 2 ^ 64
        let n1 := (n10 + d) % 2 ^ 64
        if n1 < n10 ∨ n1 > maxUint64 then (maxUint64, some NumErr.ErrRange)
        else parseUintLoop cs n1

/-- Go `strconv.ParseUint(s, 10, 64)`: the value and the error, if any. -/
def ParseUint (s : GoString) : Nat × Option NumErr :=
  match s with
  | [] => (0, some NumErr.ErrSyntax)
  | _ => parseUintLoop s 0

/-- The range check that ends `ParseInt`: from the result `r` of `ParseUint`
on the text after the sign, and whether the sign was a minus. -/
def ParseInt_signed (neg : Bool) (r : Nat × Option NumErr) : Int × Option NumErr :=
  if r.2 = some NumErr.ErrSyntax then (0, r.2)
  else
    let cutoff : Nat := 2 ^ 63
    if !neg && decide (r.1 ≥ cutoff) then ((cutoff : Int) - 1, some NumErr.ErrRange)
    else if neg && decide (r.1 > cutoff) then (-(cutoff : Int), some NumErr.ErrRange)
    else
      let n := toInt64 (r.1 : Int)
      (if neg then toInt64 (-n) else n, none)

/-- Go `strconv.ParseInt(s, 10, 64)`: the value and the error, if any.  On a
syntax error the value is 0; on a range error it is the 64-bit integer of
largest magnitude with the sign of the text. -/
def ParseInt (s : GoString) : Int × Option NumErr :=
  match s with
  | [] => (0, some NumErr.ErrSyntax)
  | c :: cs =>
    let neg : Bool := decide (c = 45)
    let s1 : GoString := if c = 43 then cs else if c = 45 then cs else c :: cs
    ParseInt_signed neg (ParseUint s1)

/-! ## The client: `parseInput` -/

/-- The client's `parseInput`.  `none` is a run-time panic of one of the three
slice expressions; otherwise the result is `(userId, message)`.  The error of
`ParseInt` is only printed, and the value it returned is used. -/
def parseInput (input : GoString) : Option (Int × GoString) :=
  let idIdx : Int := Index input (bytes "id")
  let idOffset : Int := 3
  match sliceFrom input (idIdx + idOffset) with
  | none => none
  | some rest =>
    let spcIdx : Int := Index rest (bytes " ")
    let spcIdx : Int := if spcIdx = -1 then 1 else spcIdx
    match slice input (idIdx + idOffset) (idIdx + idOffset + spcIdx) with
    | none => none
    | some idText =>
      let id := (ParseInt idText).1
      match sliceFrom input (idIdx + idOffset + spcIdx + 5) with
      | none => none
      | some msg => some (toInt32 id, msg)

/-! ## Decimal text, as the client's input format names it -/

/-- Whether a byte is an ASCII decimal digit. -/
def isDigit (c : Nat) : Bool := decide (48 ≤ c) && decide (c ≤ 57)

/-- The number a run of decimal digits denotes, continuing from `n`. -/
def digitsVal (n : Nat) (ds : GoString) : Nat :=
  ds.foldl (fun a c => a * 10 + (c - 48)) n

/-- The decimal digits of `n`, most significant first, with `fuel` bounding
their number. -/
def decimalDigits : Nat → Nat → GoString
  | 0, _ => []
  | fuel + 1, n =>
    if n < 10 then [48 + n] else decimalDigits fuel (n / 10) ++ [48 + n % 10]

/-- The decimal text of a natural number, without leading zeros. -/
def decimalNat (n : Nat) : GoString := decimalDigits (n + 1) n

/-- The decimal text of an integer: a minus sign for a negative number, then
the digits of its magnitude. -/
def decimal (n : Int) : GoString :=
  if n < 0 then 45 :: decimalNat n.natAbs else decimalNat n.natAbs

/-- The integer a text denotes when it is a valid decimal integer: an optional
sign followed by one or more digits. -/
def decimalValue? (t : GoString) : Option Int :=
  match t with
  | [] => none
  | c :: cs =>
    let body : GoString := if c = 43 ∨ c = 45 then cs else c :: cs
    if body ≠ [] ∧ body.all isDigit = true then
      some (if c = 45 then -(digitsVal 0 body : Int) else (digitsVal 0 body : Int))
    else none

/-! ### The quantities that describe a run of `parseInput` -/

/-- The index of the first occurrence of `id` in the line, or `-1`. -/
def idIndex (s : GoString) : Int := Index s (bytes "id")

/-- The index of the first space in `s[i+3:]`, where `i` is `idIndex s`, or 1
when there is none. -/
def spaceOffset (s : GoString) : Int :=
  if Index (s.drop (idIndex s + 3).toNat) (bytes " ") = -1 then 1
  else Index (s.drop (idIndex s + 3).toNat) (bytes " ")

/-- The text `s[i+3 : i+3+k]` that `parseInput` hands to `ParseInt`, where `i`
is `idIndex s` and `k` is `spaceOffset s`. -/
def idText (s : GoString) : GoString :=
  (s.drop (idIndex s + 3).toNat).take (spaceOffset s).toNat

/-- The id the description of `parseInput` names for the text between `id=`
and the space: the int32 truncation of its decimal value, and 0 when the text
is not a valid integer. -/
def describedId (t : GoString) : Int :=
  match decimalValue? t with
  | some v => toInt32 v
  | none => 0

/-- The result the description of `parseInput` names: no panic exactly when
`i + 3` and `i + k + 8` are within the line, and then the described id and the
text `s[i+k+8:]`. -/
def parseInput_described (s : GoString) : Option (Int × GoString) :=
  if idIndex s + 3 ≤ (s.length : Int) ∧ idIndex s + spaceOffset s + 8 ≤ (s.length : Int) then
    some (describedId (idText s), s.drop (idIndex s + spaceOffset s + 8).toNat)
  else none

/-! ## The server: messages, registry and directory -/

/-- The message `pb.ChatRequest`: sender, recipient (both `int32`) and text. -/
structure ChatRequest where
  FromUserId : Int
  ToUserId : Int
  Message : GoString
  deriving DecidableEq

/-- The message `pb.ChatResponse` written to a user's outbound stream. -/
structure ChatResponse where
  FromUserId : Int
  Message : GoString
  deriving DecidableEq

/-- The message `pb.EmptyResponse`. -/
structure EmptyResponse where
  deriving DecidableEq

/-- A channel `chan *pb.ChatRequest`, by its identity. -/
abbrev Chan := Nat

/-- A Go `map[int]chan *pb.ChatRequest`, as an association list.  The three
operations below never leave two entries for one key. -/
abbrev UserMap := List (Int × Chan)

/-- The map read `c, ok := m[k]`. -/
def mapGet (m : UserMap) (k : Int) : Option Chan := m.lookup k

/-- The map write `m[k] = v`. -/
def mapSet (m : UserMap) (k : Int) (v : Chan) : UserMap :=
  (k, v) :: m.filter (fun e => decide (e.1 ≠ k))

/-- The builtin `delete(m, k)`; deleting an absent key does nothing. -/
def mapDelete (m : UserMap) (k : Int) : UserMap :=
  m.filter (fun e => decide (e.1 ≠ k))

/-- The command-line flags the server reads: `-serverId`, `-sub` (the inbound
relay subject) and `-subTo` (the outbound relay subject). -/
structure Flags where
  serverId : Int
  subjectName : GoString
  subjectNameTo : GoString
  deriving DecidableEq

/-- The state of a `server` value that its methods read and write: the
presence registry `UserList`, and behind the pool `db` the rows of the table
`connections`, each a pair `(s_id, c_id)` of a server id and a user id (the
two values of the `INSERT` fill the columns in this order). -/
structure server where
  UserList : UserMap
  db : List (Int × Int)
  deriving DecidableEq

/-- How a call ends: it returns, or `log.Fatal` ends the process. -/
inductive Outcome (α : Type) where
  | ok (a : α)
  | fatal
  deriving DecidableEq

/-- The serialisation of the protobuf library, which the repository imports:
`Marshal` is `proto.Marshal` (`none` when it reports an error) and `Unmarshal`
gives the message that `proto.Unmarshal(data, msg)` leaves in a fresh `msg`. -/
structure Codec where
  Marshal : ChatRequest → Option (List Nat)
  Unmarshal : List Nat → ChatRequest

/-- What a call does to the outside of the `server` value: a send `c <- req`
on a channel, or `s.js.Publish(subject, payload)` on the relay transport. -/
inductive Effect where
  | push (c : Chan) (req : ChatRequest)
  | publish (subject : GoString) (payload : List Nat)
  deriving DecidableEq

/-- `InsertConnection`: the `INSERT INTO connections VALUES($1, $2)`; `dbErr`
says whether the store reports an error, which is fatal. -/
def InsertConnection (s : server) (dbErr : Bool) (serverId userId : Int) : Outcome server :=
  if dbErr then Outcome.fatal
  else Outcome.ok { s with db := s.db ++ [(serverId, userId)] }

/-- `GetServerUserIsConnecting`: the `s_id` of the first row with the given
`c_id`, and 0 when there is no such row or the query fails otherwise. -/
def GetServerUserIsConnecting (s : server) (dbErr : Bool) (userId : Int) : Int :=
  if dbErr then 0
  else
    match s.db.find? (fun r => decide (r.2 = userId)) with
    | some r => r.1
    | none => 0

/-- `DeleteConnection`: the `DELETE FROM connections WHERE s_id = $1 AND
c_id = $2`; `dbErr` says whether the store reports an error, which is fatal. -/
def DeleteConnection (s : server) (dbErr : Bool) (serverId userId : Int) : Outcome server :=
  if dbErr then Outcome.fatal
  else Outcome.ok { s with db := s.db.filter (fun r => !(decide (r.1 = serverId ∧ r.2 = userId))) }

/-! ## The router: `Send` -/

/-- The result of a call of `Send`: the `server` after the call, what it sent
and published, in order, and the returned pair `(*pb.EmptyResponse, error)`
with `none` for the `nil` error. -/
structure SendResult where
  srv : server
  effects : List Effect
  ret : Outcome (EmptyResponse × Option GoString)
  deriving DecidableEq

/-- The method `Send`.  The directory lookup of the source is commented out:
a message for a user who is not in `UserList` is always published on
`*subjectNameTo`. -/
def Send (fl : Flags) (pb : Codec) (s : server) (req : ChatRequest) : SendResult :=
  if req.ToUserId ≠ 0 then
    match mapGet s.UserList req.ToUserId with
    | some c =>
      if req.Message.length > 0 then
        { srv := s, effects := [Effect.push c req], ret := Outcome.ok ({}, none) }
      else
        { srv := s, effects := [], ret := Outcome.ok ({}, none) }
    | none =>
      match pb.Marshal req with
      | none => { srv := s, effects := [], ret := Outcome.fatal }
      | some payload =>
        { srv := s, effects := [Effect.publish fl.subjectNameTo payload],
          ret := Outcome.ok ({}, none) }
  else
    { srv := s, effects := [], ret := Outcome.ok ({}, none) }

/-- The handler that `main` subscribes on `*subjectName`: it unmarshals the
data of the relay message, ignoring the error, and calls `Send`. -/
def main_relayHandler (fl : Flags) (pb : Codec) (s : server) (data : List Nat) : SendResult :=
  Send fl pb s (pb.Unmarshal data)

/-! ## The session lifecycle: `Subscribe` -/

/-- `Subscribe` up to the start of its goroutine: `ch` is the channel that
`make` returned; it is stored and the connection row inserted only when the
user has no entry in `UserList`. -/
def Subscribe_connect (fl : Flags) (s : server) (dbErr : Bool) (UserId : Int) (ch : Chan) :
    Outcome server :=
  match mapGet s.UserList UserId with
  | none =>
    InsertConnection { s with UserList := mapSet s.UserList UserId ch } dbErr fl.serverId UserId
  | some _ => Outcome.ok s

/-- The branch `case req := <-ch` of the goroutine of `Subscribe`: the response
it writes to the stream. -/
def Subscribe_forward (req : ChatRequest) : ChatResponse :=
  { FromUserId := req.FromUserId, Message := req.Message }

/-- The branch `case <-stream.Context().Done()` of the goroutine of
`Subscribe`, up to `done <- true`: the teardown. -/
def Subscribe_teardown (fl : Flags) (s : server) (dbErr : Bool) (UserId : Int) : Outcome server :=
  DeleteConnection { s with UserList := mapDelete s.UserList UserId } dbErr fl.serverId UserId

/-! ## One server instance as a step machine -/

/-- Where a call of `Subscribe` stands. -/
inductive Phase where
  /-- The call waits on `<-done`; its goroutine is in the `select` loop. -/
  | active
  /-- The call has returned `err` (`none` is `nil`); its goroutine is in the
  `select` loop again, with the context still done. -/
  | returned (err : Option GoString)
  /-- The goroutine has run the teardown a second time and stays blocked on
  `done <- true`, which nobody receives. -/
  | blocked
  deriving DecidableEq

/-- One call of `Subscribe`: its user, the channel it made, whether it stored
that channel in `UserList`, and where it stands. -/
structure Session where
  UserId : Int
  ch : Chan
  registered : Bool
  phase : Phase
  deriving DecidableEq

/-- One server instance: the `server` value, the calls of `Subscribe` in order
of arrival (the call at position `k` made channel `k`), the calls of
`stream.Send` (with the position of the session and the response) and the
publications on the relay transport. -/
structure World where
  srv : server
  sessions : List Session
  streamed : List (Nat × ChatResponse)
  published : List (GoString × List Nat)
  deriving DecidableEq

/-- A step of a server instance. -/
inductive Step where
  /-- A client opens a stream: `Subscribe` runs up to the start of its goroutine. -/
  | connect (UserId : Int) (dbErr : Bool)
  /-- The context of session `sid` is done and its goroutine takes that branch. -/
  | disconnect (sid : Nat) (dbErr : Bool)
  /-- A client calls `Send`. -/
  | send (req : ChatRequest)
  /-- The relay transport delivers a message to the handler of `main`. -/
  | relay (data : List Nat)
  deriving DecidableEq

/-- The world before any client has connected, with the rows `db0` in the
table `connections`. -/
def World.init (db0 : List (Int × Int)) : World :=
  { srv := { UserList := [], db := db0 }, sessions := [], streamed := [], published := [] }

/-- Whether the goroutine of a session still receives from its channel. -/
def Session.receives (x : Session) : Bool := decide (x.phase ≠ Phase.blocked)

/-- The world after one effect of `Send`.  A send on a channel is taken by the
session whose goroutine receives from it, which writes the response to its
stream; with no such session the sender stays blocked and nothing changes. -/
def World.apply (w : World) : Effect → World
  | Effect.push c req =>
    match w.sessions.findIdx? (fun x => decide (x.ch = c) && x.receives) with
    | some sid => { w with streamed := w.streamed ++ [(sid, Subscribe_forward req)] }
    | none => w
  | Effect.publish subject payload =>
    { w with published := w.published ++ [(subject, payload)] }

/-- The world after a call of `Send` that gave `r`, or `none` when the call
ended the process. -/
def World.afterSend (w : World) (r : SendResult) : Option World :=
  match r.ret with
  | Outcome.fatal => none
  | Outcome.ok _ => some (r.effects.foldl World.apply { w with srv := r.srv })

/-- One step of a server instance; `none` when the step cannot be taken (no
such session, or its goroutine is blocked) or ends the process. -/
def World.step (fl : Flags) (pb : Codec) (w : World) : Step → Option World
  | Step.connect UserId dbErr =>
    match Subscribe_connect fl w.srv dbErr UserId w.sessions.length with
    | Outcome.fatal => none
    | Outcome.ok srv =>
      some { w with
        srv := srv
        sessions := w.sessions ++
          [{ UserId := UserId, ch := w.sessions.length,
             registered := (mapGet w.srv.UserList UserId).isNone, phase := Phase.active }] }
  | Step.disconnect sid dbErr =>
    match w.sessions.get? sid with
    | none => none
    | some x =>
      match x.phase with
      | Phase.blocked => none
      | Phase.active =>
        match Subscribe_teardown fl w.srv dbErr x.UserId with
        | Outcome.fatal => none
        | Outcome.ok srv =>
          some { w with
            srv := srv
            sessions := w.sessions.set sid { x with phase := Phase.returned none } }
      | Phase.returned _ =>
        match Subscribe_teardown fl w.srv dbErr x.UserId with
        | Outcome.fatal => none
        | Outcome.ok srv =>
          some { w with srv := srv, sessions := w.sessions.set sid { x with phase := Phase.blocked } }
  | Step.send req => w.afterSend (Send fl pb w.srv req)
  | Step.relay data => w.afterSend (main_relayHandler fl pb w.srv data)

/-- The world after a list of steps, or `none` when one of them cannot be
taken or ends the process. -/
def World.run (fl : Flags) (pb : Codec) : World → List Step → Option World
  | w, [] => some w
  | w, st :: rest =>
    match w.step fl pb st with
    | none => none
    | some w1 => World.run fl pb w1 rest

/-! ## A concrete serialisation, used to run the definitions -/

/-- An integer as a natural number: 0, -1, 1, -2, ... as 0, 1, 2, 3, ... -/
def zigzag (n : Int) : Nat := if n < 0 then 2 * (-n).toNat - 1 else 2 * n.toNat

/-- The inverse of `zigzag`. -/
def unzigzag (k : Nat) : Int := if k % 2 = 0 then (k / 2 : Nat) else -(((k + 1) / 2 : Nat) : Int)

/-- A serialisation with which deserialising undoes serialising: the two ids,
then the bytes of the text. -/
def plainCodec : Codec where
  Marshal := fun r => some (zigzag r.FromUserId :: zigzag r.ToUserId :: r.Message)
  Unmarshal := fun data =>
    match data with
    | a :: b :: msg => { FromUserId := unzigzag a, ToUserId := unzigzag b, Message := msg }
    | _ => { FromUserId := 0, ToUserId := 0, Message := [] }

/-- The flags of an instance A: server 1, inbound subject `CHAT.a`, outbound
subject `CHAT.b`. -/
def flagsA : Flags := { serverId := 1, subjectName := bytes "CHAT.a", subjectNameTo := bytes "CHAT.b" }

/-- The flags of an instance B: server 2, inbound subject `CHAT.b`, outbound
subject `CHAT.a`. -/
def flagsB : Flags := { serverId := 2, subjectName := bytes "CHAT.b", subjectNameTo := bytes "CHAT.a" }

/-! ## Properties stated over the model -/

/-- The registry and the directory agree on the users of server `fl.serverId`:
a user has an entry in `UserList` exactly when the table has a row for the
server and that user. -/
def Agree (fl : Flags) (s : server) : Prop :=
  ∀ u : Int, (mapGet s.UserList u).isSome = true ↔ (fl.serverId, u) ∈ s.db

/-! ## Lemmas on `ParseUint` and `ParseInt` -/

theorem digitVal_of_isDigit {c : Nat} (h : isDigit c = true) : digitVal c = some (c - 48) := by
  simp only [isDigit, Bool.and_eq_true, decide_eq_true_eq] at h
  simp [digitVal, h]

theorem digitVal_of_not_isDigit {c : Nat} (h : isDigit c = false) :
    digitVal c = none ∨ ∃ d, digitVal c = some d ∧ 10 ≤ d := by
  have h' : ¬ (48 ≤ c ∧ c ≤ 57) := by
    intro hc
    simp [isDigit, hc.1, hc.2] at h
  unfold digitVal
  rw [if_neg h']
  by_cases hl : 97 ≤ lower c ∧ lower c ≤ 122
  · right
    exact ⟨_, by rw [if_pos hl], by omega⟩
  · left
    rw [if_neg hl]

theorem le_digitsVal (ds : GoString) (n : Nat) : n ≤ digitsVal n ds := by
  induction ds generalizing n with
  | nil => simp [digitsVal]
  | cons c cs ih =>
    have h := ih (n * 10 + (c - 48))
    simp only [digitsVal, List.foldl_cons] at h ⊢
    omega

theorem digitsVal_cons (n c : Nat) (cs : GoString) :
    digitsVal n (c :: cs) = digitsVal (n * 10 + (c - 48)) cs := rfl

theorem digitsVal_append (n : Nat) (xs ys : GoString) :
    digitsVal n (xs ++ ys) = digitsVal (digitsVal n xs) ys := by
  simp [digitsVal, List.foldl_append]

/-- On a run of digits the loop of `ParseUint` returns the number they denote
when it fits in 64 bits, and otherwise `maxUint64` with a range error. -/
theorem parseUintLoop_digits (ds : GoString) (n : Nat) (hds : ds.all isDigit = true)
    (hn : n < 2 ^ 64) :
    parseUintLoop ds n =
      if digitsVal n ds < 2 ^ 64 then (digitsVal n ds, none)
      else (maxUint64, some NumErr.ErrRange) := by
  induction ds generalizing n with
  | nil =>
    simp only [parseUintLoop, digitsVal, List.foldl_nil]
    rw [if_pos hn]
  | cons c cs ih =>
    simp only [List.all_cons, Bool.and_eq_true] at hds
    have hc := hds.1
    have hc' := hc
    simp only [isDigit, Bool.and_eq_true, decide_eq_true_eq] at hc'
    have hmono := le_digitsVal cs (n * 10 + (c - 48))
    rw [digitsVal_cons]
    simp only [parseUintLoop, digitVal_of_isDigit hc]
    have hd : ¬ (c - 48 ≥ 10) := by omega
    rw [if_neg hd]
    by_cases hcut : n ≥ uintCutoff
    · rw [if_pos hcut]
      have : ¬ digitsVal (n * 10 + (c - 48)) cs < 2 ^ 64 := by
        simp only [uintCutoff, maxUint64] at hcut
        norm_num at hcut ⊢
        omega
      rw [if_neg this]
    · rw [if_neg hcut]
      simp only [uintCutoff, maxUint64] at hcut
      norm_num at hcut
      have h10 : (n * 10) % 2 ^ 64 = n * 10 := by
        apply Nat.mod_eq_of_lt
        norm_num
        omega
      simp only [h10]
      by_cases hfit : n * 10 + (c - 48) < 2 ^ 64
      · have h1 : (n * 10 + (c - 48)) % 2 ^ 64 = n * 10 + (c - 48) := Nat.mod_eq_of_lt hfit
        simp only [h1]
        have hno : ¬ (n * 10 + (c - 48) < n * 10 ∨ n * 10 + (c - 48) > maxUint64) := by
          simp only [maxUint64]
          norm_num at hfit ⊢
          omega
        rw [if_neg hno]
        exact ih _ hds.2 hfit
      · have hov : ((n * 10 + (c - 48)) % 2 ^ 64 < n * 10 ∨
            (n * 10 + (c - 48)) % 2 ^ 64 > maxUint64) := by
          left
          norm_num at hfit ⊢
          omega
        rw [if_pos hov]
        have : ¬ digitsVal (n * 10 + (c - 48)) cs < 2 ^ 64 := by
          norm_num at hfit ⊢
          omega
        rw [if_neg this]

/-- On a text with a byte that is not a digit the loop of `ParseUint` fails,
with a syntax error or, when the digits before that byte already overflow, with
a range error. -/
theorem parseUintLoop_not_digits (ds : GoString) (n : Nat) (hds : ds.all isDigit = false) :
    parseUintLoop ds n = (0, some NumErr.ErrSyntax) ∨
      parseUintLoop ds n = (maxUint64, some NumErr.ErrRange) := by
  induction ds generalizing n with
  | nil => simp at hds
  | cons c cs ih =>
    by_cases hc : isDigit c = true
    · have hcs : cs.all isDigit = false := by
        simpa [List.all_cons, hc] using hds
      have hc' := hc
      simp only [isDigit, Bool.and_eq_true, decide_eq_true_eq] at hc'
      simp only [parseUintLoop, digitVal_of_isDigit hc]
      have hd : ¬ (c - 48 ≥ 10) := by omega
      rw [if_neg hd]
      split
      · right; rfl
      · split
        · right; rfl
        · exact ih _ hcs
    · have hc0 : isDigit c = false := by simpa using hc
      rcases digitVal_of_not_isDigit hc0 with h | ⟨d, h, hd⟩
      · left
        simp [parseUintLoop, h]
      · left
        simp only [parseUintLoop, h]
        rw [if_pos hd]

theorem ParseUint_digits (ds : GoString) (hne : ds ≠ []) (hds : ds.all isDigit = true) :
    ParseUint ds =
      if digitsVal 0 ds < 2 ^ 64 then (digitsVal 0 ds, none)
      else (maxUint64, some NumErr.ErrRange) := by
  cases ds with
  | nil => exact absurd rfl hne
  | cons c cs => exact parseUintLoop_digits (c :: cs) 0 hds (by norm_num)

theorem ParseUint_not_digits (ds : GoString) (hds : ds = [] ∨ ds.all isDigit = false) :
    ParseUint ds = (0, some NumErr.ErrSyntax) ∨
      ParseUint ds = (maxUint64, some NumErr.ErrRange) := by
  cases ds with
  | nil => left; rfl
  | cons c cs =>
    rcases hds with h | h
    · exact absurd h (by simp)
    · exact parseUintLoop_not_digits (c :: cs) 0 h

theorem ParseInt_signed_syntax (neg : Bool) :
    ParseInt_signed neg (0, some NumErr.ErrSyntax) = (0, some NumErr.ErrSyntax) := by
  simp [ParseInt_signed]

theorem ParseInt_signed_range (neg : Bool) :
    ParseInt_signed neg (maxUint64, some NumErr.ErrRange) =
      (if neg then -(2 ^ 63 : Int) else 2 ^ 63 - 1, some NumErr.ErrRange) := by
  cases neg <;> simp [ParseInt_signed, maxUint64]

theorem ParseInt_signed_pos (u : Nat) :
    ParseInt_signed false (u, none) =
      if u < 2 ^ 63 then ((u : Int), none) else (2 ^ 63 - 1, some NumErr.ErrRange) := by
  by_cases h : u < 2 ^ 63
  · have h64 : toInt64 (u : Int) = u := by
      unfold toInt64
      norm_num at h ⊢
      omega
    norm_num at h
    simp [ParseInt_signed, h64]
    rw [if_neg (by omega), if_pos (by omega)]
  · norm_num at h
    simp [ParseInt_signed]
    rw [if_pos (by omega), if_neg (by omega)]

theorem ParseInt_signed_neg (u : Nat) :
    ParseInt_signed true (u, none) =
      if u ≤ 2 ^ 63 then (-(u : Int), none) else (-(2 ^ 63 : Int), some NumErr.ErrRange) := by
  by_cases h : u ≤ 2 ^ 63
  · have h64 : toInt64 (-toInt64 (u : Int)) = -(u : Int) := by
      unfold toInt64
      norm_num at h ⊢
      omega
    norm_num at h
    simp [ParseInt_signed, h64]
    rw [if_neg (by omega), if_pos (by omega)]
  · norm_num at h
    simp [ParseInt_signed]
    rw [if_pos (by omega), if_neg (by omega)]


/-- What `ParseInt` returns on a valid decimal integer: its value when that
fits in 64 bits, and otherwise the bound of its sign with a range error. -/
theorem ParseInt_of_decimalValue (t : GoString) (v : Int) (h : decimalValue? t = some v) :
    ParseInt t =
      if v < -(2 ^ 63 : Int) then (-(2 ^ 63 : Int), some NumErr.ErrRange)
      else if v < 2 ^ 63 then (v, none)
      else (2 ^ 63 - 1, some NumErr.ErrRange) := by
  cases t with
  | nil => simp [decimalValue?] at h
  | cons c cs =>
    simp only [decimalValue?] at h
    have hs1 : (if c = 43 then cs else if c = 45 then cs else c :: cs) =
        (if c = 43 ∨ c = 45 then cs else c :: cs) := by
      by_cases h43 : c = 43 <;> simp [h43]
    simp only [ParseInt, hs1]
    generalize (if c = 43 ∨ c = 45 then cs else c :: cs) = body at h ⊢
    by_cases hb : body ≠ [] ∧ body.all isDigit = true
    · rw [if_pos hb] at h
      simp only [Option.some.injEq] at h
      rw [ParseUint_digits body hb.1 hb.2]
      by_cases hneg : c = 45
      · rw [if_pos hneg] at h
        simp only [hneg, decide_True]
        by_cases hfit : digitsVal 0 body < 2 ^ 64
        · rw [if_pos hfit, ParseInt_signed_neg]
          subst h
          norm_num at hfit ⊢
          by_cases hle : digitsVal 0 body ≤ 9223372036854775808
          · rw [if_pos hle, if_neg (by omega), if_pos (by omega)]
          · rw [if_neg hle, if_pos (by omega)]
        · rw [if_neg hfit, ParseInt_signed_range]
          subst h
          norm_num at hfit ⊢
          rw [if_pos (by omega)]
      · rw [if_neg hneg] at h
        have hdec : decide (c = 45) = false := by simpa using hneg
        simp only [hdec]
        by_cases hfit : digitsVal 0 body < 2 ^ 64
        · rw [if_pos hfit, ParseInt_signed_pos]
          subst h
          norm_num at hfit ⊢
          by_cases hlt : digitsVal 0 body < 9223372036854775808
          · rw [if_pos hlt, if_neg (by omega)]
          · rw [if_neg hlt, if_neg (by omega)]
        · rw [if_neg hfit, ParseInt_signed_range]
          subst h
          norm_num at hfit ⊢
          rw [if_neg (by omega), if_neg (by omega)]
    · rw [if_neg hb] at h
      exact absurd h (by simp)

/-- What `ParseInt` returns on a text that is not a valid decimal integer: a
syntax error with value 0, or a range error with the bound of its sign when
the digits before the first bad byte already overflow. -/
theorem ParseInt_of_not_decimal (t : GoString) (h : decimalValue? t = none) :
    ParseInt t = (0, some NumErr.ErrSyntax) ∨
      ParseInt t = (2 ^ 63 - 1, some NumErr.ErrRange) ∨
      ParseInt t = (-(2 ^ 63 : Int), some NumErr.ErrRange) := by
  cases t with
  | nil => left; rfl
  | cons c cs =>
    simp only [decimalValue?] at h
    have hs1 : (if c = 43 then cs else if c = 45 then cs else c :: cs) =
        (if c = 43 ∨ c = 45 then cs else c :: cs) := by
      by_cases h43 : c = 43 <;> simp [h43]
    simp only [ParseInt, hs1]
    have hbad : (if c = 43 ∨ c = 45 then cs else c :: cs) = [] ∨
        (if c = 43 ∨ c = 45 then cs else c :: cs).all isDigit = false := by
      by_contra hcon
      push_neg at hcon
      have h2 : (if c = 43 ∨ c = 45 then cs else c :: cs).all isDigit = true := by
        simpa using hcon.2
      rw [if_pos ⟨hcon.1, h2⟩] at h
      exact absurd h (by simp)
    rcases ParseUint_not_digits _ hbad with hu | hu
    · left
      rw [hu, ParseInt_signed_syntax]
    · right
      rw [hu, ParseInt_signed_range]
      by_cases hneg : c = 45
      · right; simp [hneg]
      · left; simp [hneg]

theorem indexFrom_ge (sub s : GoString) (i : Nat) : -1 ≤ indexFrom sub s i := by
  induction s generalizing i with
  | nil =>
    unfold indexFrom
    split <;> omega
  | cons c cs ih =>
    unfold indexFrom
    split
    · omega
    · exact ih _

theorem Index_ge (s sub : GoString) : -1 ≤ Index s sub := indexFrom_ge sub s 0

theorem idIndex_ge (s : GoString) : -1 ≤ idIndex s := Index_ge _ _

theorem spaceOffset_nonneg (s : GoString) : 0 ≤ spaceOffset s := by
  unfold spaceOffset
  have h := Index_ge (s.drop (idIndex s + 3).toNat) (bytes " ")
  split <;> omega

theorem sliceFrom_eq (s : GoString) (lo : Int) :
    sliceFrom s lo =
      if 0 ≤ lo ∧ lo ≤ (s.length : Int) then some (s.drop lo.toNat) else none := by
  unfold sliceFrom slice
  by_cases h : 0 ≤ lo ∧ lo ≤ (s.length : Int)
  · have h' : 0 ≤ lo ∧ lo ≤ (s.length : Int) ∧ (s.length : Int) ≤ (s.length : Int) :=
      ⟨h.1, h.2, le_refl _⟩
    rw [if_pos h', if_pos h]
    congr 1
    apply List.take_of_length_le
    rw [List.length_drop]
    omega
  · have h' : ¬ (0 ≤ lo ∧ lo ≤ (s.length : Int) ∧ (s.length : Int) ≤ (s.length : Int)) := by
      intro hc
      exact h ⟨hc.1, hc.2.1⟩
    rw [if_neg h', if_neg h]

/-- The result of `parseInput` in closed form: it panics unless both
`i + 3` and `i + k + 8` are within the line, and otherwise returns the
truncated value of `ParseInt` on `s[i+3 : i+3+k]` and the text `s[i+k+8:]`. -/
theorem parseInput_eq (s : GoString) :
    parseInput s =
      if idIndex s + 3 ≤ (s.length : Int) ∧ idIndex s + spaceOffset s + 8 ≤ (s.length : Int) then
        some (toInt32 (ParseInt (idText s)).1, s.drop (idIndex s + spaceOffset s + 8).toNat)
      else none := by
  have hi : -1 ≤ idIndex s := idIndex_ge s
  have hk : 0 ≤ spaceOffset s := spaceOffset_nonneg s
  have hunf : parseInput s =
      (match sliceFrom s (idIndex s + 3) with
      | none => none
      | some rest =>
        match slice s (idIndex s + 3)
          (idIndex s + 3 + (if Index rest (bytes " ") = -1 then 1 else Index rest (bytes " "))) with
        | none => none
        | some idText =>
          match sliceFrom s
            (idIndex s + 3 + (if Index rest (bytes " ") = -1 then 1 else Index rest (bytes " "))
              + 5) with
          | none => none
          | some msg => some (toInt32 (ParseInt idText).1, msg)) := rfl
  rw [hunf, sliceFrom_eq]
  by_cases h1 : idIndex s + 3 ≤ (s.length : Int)
  · rw [if_pos ⟨by omega, h1⟩]
    simp only []
    have hk' : (if Index (s.drop (idIndex s + 3).toNat) (bytes " ") = -1 then 1
        else Index (s.drop (idIndex s + 3).toNat) (bytes " ")) = spaceOffset s := rfl
    rw [hk', sliceFrom_eq]
    by_cases h2 : idIndex s + spaceOffset s + 8 ≤ (s.length : Int)
    · have hs : slice s (idIndex s + 3) (idIndex s + 3 + spaceOffset s) = some (idText s) := by
        unfold slice idText
        rw [if_pos ⟨by omega, by omega, by omega⟩]
        congr 3
        omega
      have hin : 0 ≤ idIndex s + 3 + spaceOffset s + 5 ∧
          idIndex s + 3 + spaceOffset s + 5 ≤ (s.length : Int) := ⟨by omega, by omega⟩
      rw [hs, if_pos hin, if_pos ⟨h1, h2⟩]
      simp only []
      congr 4
      omega
    · have hin : ¬ (0 ≤ idIndex s + 3 + spaceOffset s + 5 ∧
          idIndex s + 3 + spaceOffset s + 5 ≤ (s.length : Int)) := fun hc => h2 (by omega)
      rw [if_neg hin, if_neg (fun hc => h2 hc.2)]
      cases slice s (idIndex s + 3) (idIndex s + 3 + spaceOffset s) with
      | none => rfl
      | some t => rfl
  · rw [if_neg (fun hc => h1 hc.2), if_neg (fun hc => h1 hc.1)]

/-! ### Lemmas on decimal text -/

theorem decimalDigits_all (fuel n : Nat) : (decimalDigits fuel n).all isDigit = true := by
  induction fuel generalizing n with
  | zero => simp [decimalDigits]
  | succ f ih =>
    unfold decimalDigits
    split
    · simp [isDigit]
      omega
    · rw [List.all_append, ih]
      simp [isDigit]
      omega

theorem decimalDigits_ne_nil (fuel n : Nat) : decimalDigits (fuel + 1) n ≠ [] := by
  unfold decimalDigits
  split <;> simp

theorem decimalDigits_val (fuel n : Nat) (h : n < fuel) :
    digitsVal 0 (decimalDigits fuel n) = n := by
  induction fuel generalizing n with
  | zero => omega
  | succ f ih =>
    unfold decimalDigits
    split
    · simp [digitsVal]
    · rw [digitsVal_append, ih (n / 10) (by omega)]
      simp only [digitsVal, List.foldl_cons, List.foldl_nil]
      omega

theorem decimalNat_all (n : Nat) : (decimalNat n).all isDigit = true :=
  decimalDigits_all _ _

theorem decimalNat_ne_nil (n : Nat) : decimalNat n ≠ [] := decimalDigits_ne_nil _ _

theorem decimalNat_val (n : Nat) : digitsVal 0 (decimalNat n) = n :=
  decimalDigits_val _ _ (by omega)

/-- The decimal text of an integer is a valid decimal integer, and denotes it. -/
theorem decimalValue?_decimal (n : Int) : decimalValue? (decimal n) = some n := by
  unfold decimal
  by_cases hn : n < 0
  · rw [if_pos hn]
    simp only [decimalValue?]
    rw [if_pos ⟨by simpa using decimalNat_ne_nil _, by simpa using decimalNat_all _⟩]
    simp only [reduceIte, or_true, decimalNat_val, Option.some.injEq]
    omega
  · rw [if_neg hn]
    have hne := decimalNat_ne_nil n.natAbs
    have hall := decimalNat_all n.natAbs
    have hval := decimalNat_val n.natAbs
    cases hd : decimalNat n.natAbs with
    | nil => exact absurd hd hne
    | cons c cs =>
      rw [hd] at hall hval
      have hc : isDigit c = true := by
        simp only [List.all_cons, Bool.and_eq_true] at hall
        exact hall.1
      simp only [isDigit, Bool.and_eq_true, decide_eq_true_eq] at hc
      have h43 : ¬ (c = 43 ∨ c = 45) := by omega
      have h45 : ¬ (c = 45) := by omega
      simp only [decimalValue?]
      rw [if_neg h43, if_pos ⟨by simp, hall⟩, if_neg h45, hval]
      congr 1
      omega

theorem decimal_no_space (n : Int) : ∀ c ∈ decimal n, c ≠ 32 := by
  have hdig : ∀ c ∈ decimalNat n.natAbs, c ≠ 32 := by
    intro c hc
    have h := List.all_eq_true.mp (decimalNat_all n.natAbs) c hc
    simp only [isDigit, Bool.and_eq_true, decide_eq_true_eq] at h
    omega
  intro c hc
  unfold decimal at hc
  split at hc
  · rcases List.mem_cons.mp hc with h | h
    · omega
    · exact hdig c h
  · exact hdig c hc

theorem bytes_mk (cs : List Char) :
    bytes (String.mk cs) = (cs.flatMap String.utf8EncodeChar).map UInt8.toNat := rfl

theorem bytes_append (a b : String) : bytes (a ++ b) = bytes a ++ bytes b := by
  cases a with
  | mk x =>
    cases b with
    | mk y =>
      show bytes (String.mk (x ++ y)) = _
      simp [bytes_mk, List.flatMap_append]

theorem bytes_digitChar (k : Nat) (h : k < 10) :
    (String.utf8EncodeChar (Nat.digitChar k)).map UInt8.toNat = [48 + k] := by
  interval_cases k <;> rfl

theorem bytes_toDigitsCore (fuel n : Nat) (ds : List Char) :
    ((Nat.toDigitsCore 10 fuel n ds).flatMap String.utf8EncodeChar).map UInt8.toNat =
      decimalDigits fuel n ++ (ds.flatMap String.utf8EncodeChar).map UInt8.toNat := by
  induction fuel generalizing n ds with
  | zero => simp [Nat.toDigitsCore, decimalDigits]
  | succ f ih =>
    simp only [Nat.toDigitsCore, decimalDigits]
    by_cases h : n < 10
    · have h0 : n / 10 = 0 := by omega
      have hm : n % 10 = n := by omega
      rw [if_pos h0, if_pos h, hm]
      simp only [List.flatMap_cons, List.map_append, bytes_digitChar n h]
    · have h0 : ¬ (n / 10 = 0) := by omega
      rw [if_neg h0, if_neg h, ih]
      simp only [List.flatMap_cons, List.map_append, bytes_digitChar (n % 10) (by omega)]
      simp

theorem bytes_repr (n : Nat) : bytes (Nat.repr n) = decimalNat n := by
  unfold Nat.repr List.asString Nat.toDigits decimalNat
  rw [bytes_mk, bytes_toDigitsCore]
  simp

/-- The decimal text of the model is the standard rendering of an integer. -/
theorem decimal_eq_toString (n : Int) : decimal n = bytes (toString n) := by
  cases n with
  | ofNat m =>
    show decimal (m : Int) = bytes (Nat.repr m)
    rw [bytes_repr]
    simp [decimal]
  | negSucc m =>
    show decimal (Int.negSucc m) = bytes ("-" ++ Nat.repr (m + 1))
    rw [bytes_append, bytes_repr]
    have : Int.negSucc m < 0 := Int.negSucc_lt_zero m
    simp only [decimal, this, if_true]
    rfl

/-! ### Lemmas on `strings.Index` -/

theorem indexFrom_space (xs ys : GoString) (i : Nat) (h : ∀ c ∈ xs, c ≠ 32) :
    indexFrom [32] (xs ++ 32 :: ys) i = ((i + xs.length : Nat) : Int) := by
  induction xs generalizing i with
  | nil => simp [indexFrom, List.isPrefixOf]
  | cons c cs ih =>
    have hc : c ≠ 32 := h c (List.mem_cons_self _ _)
    have hc' : ¬ (32 = c) := fun e => hc e.symm
    simp only [List.cons_append, indexFrom, List.isPrefixOf, beq_iff_eq, Bool.and_true, hc',
      if_false, Bool.false_eq_true]
    have e := ih (i + 1) (fun d hd => h d (List.mem_cons_of_mem _ hd))
    rw [show cs.append (32 :: ys) = cs ++ 32 :: ys from rfl, e]
    simp only [List.length_cons]
    congr 1
    omega

theorem bytes_id : bytes "id" = [105, 100] := by decide

theorem bytes_space : bytes " " = [32] := by decide

theorem bytes_id_eq : bytes "id=" = [105, 100, 61] := by decide

theorem bytes_msg_eq : bytes " msg=" = [32, 109, 115, 103, 61] := by decide

theorem idIndex_formatted (rest : GoString) : idIndex (105 :: 100 :: rest) = 0 := by
  unfold idIndex Index
  rw [bytes_id]
  simp [indexFrom, List.isPrefixOf]

theorem toInt32_of_range (n : Int) (hlo : -(2 ^ 31 : Int) ≤ n) (hhi : n < 2 ^ 31) :
    toInt32 n = n := by
  unfold toInt32
  norm_num at hlo hhi ⊢
  omega

/-- C8. Client input format: for every 32-bit signed integer `n` and every
message `m`, `parseInput` applied to the line `id=<decimal n> msg=<m>` returns
exactly `(n, m)`; in particular `id=12 msg=hello world` gives
`(12, hello world)`. -/
theorem parseInput_format (n : Int) (m : GoString) (hlo : -(2 ^ 31 : Int) ≤ n)
    (hhi : n < 2 ^ 31) :
    parseInput (bytes "id=" ++ decimal n ++ bytes " msg=" ++ m) = some (n, m) ∧
      parseInput (bytes "id=12 msg=hello world") = some (12, bytes "hello world") := by
  refine ⟨?_, by decide⟩
  rw [bytes_id_eq, bytes_msg_eq, parseInput_eq]
  have hs : [105, 100, 61] ++ decimal n ++ [32, 109, 115, 103, 61] ++ m =
      105 :: 100 :: 61 :: (decimal n ++ 32 :: ([109, 115, 103, 61] ++ m)) := by simp
  rw [hs]
  have hi : idIndex (105 :: 100 :: 61 :: (decimal n ++ 32 :: ([109, 115, 103, 61] ++ m))) = 0 :=
    idIndex_formatted _
  have hk : spaceOffset (105 :: 100 :: 61 :: (decimal n ++ 32 :: ([109, 115, 103, 61] ++ m))) =
      ((decimal n).length : Int) := by
    unfold spaceOffset
    rw [hi, bytes_space]
    have hd : List.drop ((0 : Int) + 3).toNat
        (105 :: 100 :: 61 :: (decimal n ++ 32 :: ([109, 115, 103, 61] ++ m))) =
        decimal n ++ 32 :: ([109, 115, 103, 61] ++ m) := rfl
    rw [hd]
    unfold Index
    rw [indexFrom_space _ _ 0 (decimal_no_space n)]
    rw [if_neg (by omega)]
    simp
  have ht : idText (105 :: 100 :: 61 :: (decimal n ++ 32 :: ([109, 115, 103, 61] ++ m))) =
      decimal n := by
    unfold idText
    rw [hk, hi]
    have hd : List.drop ((0 : Int) + 3).toNat
        (105 :: 100 :: 61 :: (decimal n ++ 32 :: ([109, 115, 103, 61] ++ m))) =
        decimal n ++ 32 :: ([109, 115, 103, 61] ++ m) := rfl
    rw [hd]
    simp
  rw [ht, hk, hi]
  have hlen : ((105 :: 100 :: 61 :: (decimal n ++ 32 :: ([109, 115, 103, 61] ++ m))).length : Int)
      = ((decimal n).length : Int) + 8 + (m.length : Int) := by
    simp only [List.length_cons, List.length_append, List.length_nil]
    push_cast
    omega
  rw [if_pos ⟨by omega, by omega⟩]
  have hp : ParseInt (decimal n) = (n, none) := by
    rw [ParseInt_of_decimalValue _ n (decimalValue?_decimal n)]
    norm_num at hlo hhi ⊢
    rw [if_neg (by omega), if_pos (by omega)]
  rw [hp]
  simp only [toInt32_of_range n hlo hhi]
  congr 2
  have hdrop : ((0 : Int) + ((decimal n).length : Int) + 8).toNat = 3 + ((decimal n).length + 5) := by
    omega
  rw [hdrop]
  simp only [← List.drop_drop]
  have h3 : List.drop 3 (105 :: 100 :: 61 :: (decimal n ++ 32 :: ([109, 115, 103, 61] ++ m)))
      = decimal n ++ ([32, 109, 115, 103, 61] ++ m) := rfl
  rw [h3]
  simp

/-- Witness of C8 at `n = 12`, `m = hello world`. -/
theorem parseInput_format_witness :
    (-(2 ^ 31 : Int) ≤ 12 ∧ (12 : Int) < 2 ^ 31) ∧
      parseInput (bytes "id=" ++ decimal 12 ++ bytes " msg=" ++ bytes "hello world") =
        some (12, bytes "hello world") :=
  ⟨by decide, (parseInput_format 12 (bytes "hello world") (by decide) (by decide)).1⟩


/-- C10, counterexample. On the line `id=99999999999999999999 msg=x` no slice
panics and the id text is a valid decimal integer, yet the returned id is -1:
neither the int32 truncation of its decimal value (1661992959) nor 0. -/
theorem parseInput_id_not_described :
    parseInput (bytes "id=99999999999999999999 msg=x") = some (-1, bytes "x") ∧
      parseInput_described (bytes "id=99999999999999999999 msg=x") =
        some (1661992959, bytes "x") ∧
      decimalValue? (idText (bytes "id=99999999999999999999 msg=x")) =
        some 99999999999999999999 ∧
      parseInput (bytes "id=99999999999999999999 msg=x") ≠
        parseInput_described (bytes "id=99999999999999999999 msg=x") := by
  decide

/-- C10, amended. `parseInput` returns without a slice panic if and only if
`i + 3 ≤ L` and `i + k + 8 ≤ L`; in that case the message is `s[i+k+8:]` and
the id is the int32 truncation of what `ParseInt` returns on `s[i+3 : i+3+k]`:
the decimal value of that text when it is a valid integer that fits in 64
bits, -1 when it is a valid integer above that range, 0 when it is one below
that range, and 0 or -1 when it is not a valid integer.  The empty line and
the line `id=5` make it panic. -/
theorem parseInput_slice_bounds (s : GoString) :
    ((parseInput s).isSome = true ↔
        (idIndex s + 3 ≤ (s.length : Int) ∧
          idIndex s + spaceOffset s + 8 ≤ (s.length : Int))) ∧
      (∀ id msg, parseInput s = some (id, msg) →
        msg = s.drop (idIndex s + spaceOffset s + 8).toNat ∧
        id = toInt32 (ParseInt (idText s)).1 ∧
        (∀ v, decimalValue? (idText s) = some v → -(2 ^ 63 : Int) ≤ v → v < 2 ^ 63 →
          id = toInt32 v) ∧
        (∀ v, decimalValue? (idText s) = some v → 2 ^ 63 ≤ v → id = -1) ∧
        (∀ v, decimalValue? (idText s) = some v → v < -(2 ^ 63 : Int) → id = 0) ∧
        (decimalValue? (idText s) = none → id = 0 ∨ id = -1)) ∧
      parseInput (bytes "") = none ∧ parseInput (bytes "id=5") = none := by
  refine ⟨?_, ?_, by decide, by decide⟩
  · rw [parseInput_eq]
    by_cases h : idIndex s + 3 ≤ (s.length : Int) ∧
        idIndex s + spaceOffset s + 8 ≤ (s.length : Int)
    · rw [if_pos h]
      simp [h]
    · rw [if_neg h]
      simp [h]
  · intro id msg hres
    rw [parseInput_eq] at hres
    by_cases h : idIndex s + 3 ≤ (s.length : Int) ∧
        idIndex s + spaceOffset s + 8 ≤ (s.length : Int)
    · rw [if_pos h] at hres
      simp only [Option.some.injEq, Prod.mk.injEq] at hres
      obtain ⟨hid, hmsg⟩ := hres
      refine ⟨hmsg.symm, hid.symm, ?_, ?_, ?_, ?_⟩
      · intro v hv hlo hhi
        rw [← hid, ParseInt_of_decimalValue _ v hv, if_neg (by omega), if_pos hhi]
      · intro v hv hge
        rw [← hid, ParseInt_of_decimalValue _ v hv]
        have h1 : ¬ v < -(2 ^ 63 : Int) := by
          norm_num at hge ⊢
          omega
        have h2 : ¬ v < (2 ^ 63 : Int) := by omega
        rw [if_neg h1, if_neg h2]
        decide
      · intro v hv hlt
        rw [← hid, ParseInt_of_decimalValue _ v hv, if_pos hlt]
        decide
      · intro hv
        rw [← hid]
        rcases ParseInt_of_not_decimal _ hv with e | e | e
        · left
          rw [e]
          decide
        · right
          rw [e]
          decide
        · left
          rw [e]
          decide
    · rw [if_neg h] at hres
      exact absurd hres (by simp)

/-- Witness of C10 (amended) on the line `id=12 msg=hello world`: both bounds
hold there, so `parseInput` returns. -/
theorem parseInput_slice_bounds_witness :
    (parseInput (bytes "id=12 msg=hello world")).isSome = true :=
  (parseInput_slice_bounds (bytes "id=12 msg=hello world")).1.mpr (by decide)

/-! ## Lemmas on the registry map -/

theorem lookup_filter_ne (m : UserMap) (k v : Int) :
    List.lookup v (m.filter (fun e => decide (e.1 ≠ k))) =
      if v = k then none else List.lookup v m := by
  induction m with
  | nil => simp
  | cons e es ih =>
    obtain ⟨a, b⟩ := e
    by_cases hak : a = k
    · subst hak
      rw [List.filter_cons_of_neg (by simp), ih]
      by_cases hv : v = a
      · simp [hv]
      · have : (v == a) = false := by simpa using hv
        simp [hv, List.lookup_cons, this]
    · rw [List.filter_cons_of_pos (by simpa using hak)]
      simp only [List.lookup_cons, ih]
      by_cases hva : v = a
      · subst hva
        simp [hak]
      · have : (v == a) = false := by simpa using hva
        simp [this]

theorem mapGet_mapDelete (m : UserMap) (k v : Int) :
    mapGet (mapDelete m k) v = if v = k then none else mapGet m v :=
  lookup_filter_ne m k v

theorem mapGet_mapSet (m : UserMap) (k v : Int) (c : Chan) :
    mapGet (mapSet m k c) v = if v = k then some c else mapGet m v := by
  unfold mapGet mapSet
  by_cases hv : v = k
  · subst hv
    simp [List.lookup_cons]
  · have : (v == k) = false := by simpa using hv
    simp only [List.lookup_cons, this, lookup_filter_ne, if_neg hv]

theorem mapDelete_mapDelete (m : UserMap) (k : Int) :
    mapDelete (mapDelete m k) k = mapDelete m k := by
  unfold mapDelete
  rw [List.filter_filter]
  simp

/-! ## Lemmas on the steps of a server instance -/

theorem Send_srv (fl : Flags) (pb : Codec) (s : server) (req : ChatRequest) :
    (Send fl pb s req).srv = s := by
  unfold Send
  split
  · split
    · split <;> rfl
    · split <;> rfl
  · rfl

theorem apply_srv (w : World) (e : Effect) : (w.apply e).srv = w.srv := by
  cases e with
  | push c req =>
    simp only [World.apply]
    split <;> rfl
  | publish subject payload => rfl

theorem foldl_apply_srv (es : List Effect) (w : World) :
    (es.foldl World.apply w).srv = w.srv := by
  induction es generalizing w with
  | nil => rfl
  | cons e es ih => rw [List.foldl_cons, ih, apply_srv]

theorem afterSend_srv (w w1 : World) (r : SendResult) (h : w.afterSend r = some w1) :
    w1.srv = r.srv := by
  unfold World.afterSend at h
  split at h
  · exact absurd h (by simp)
  · simp only [Option.some.injEq] at h
    rw [← h, foldl_apply_srv]

theorem Subscribe_connect_agree (fl : Flags) (s s1 : server) (dbErr : Bool) (u : Int)
    (ch : Chan) (hs : Agree fl s) (h : Subscribe_connect fl s dbErr u ch = Outcome.ok s1) :
    Agree fl s1 := by
  unfold Subscribe_connect at h
  split at h
  · rename_i hget
    unfold InsertConnection at h
    split at h
    · exact absurd h (by simp)
    · simp only [Outcome.ok.injEq] at h
      subst h
      intro v
      simp only [mapGet_mapSet, List.mem_append, List.mem_singleton, Prod.mk.injEq, true_and]
      by_cases hv : v = u
      · simp [hv]
      · simp only [if_neg hv, hv, or_false]
        exact hs v
  · simp only [Outcome.ok.injEq] at h
    subst h
    exact hs

theorem Subscribe_teardown_agree (fl : Flags) (s s1 : server) (dbErr : Bool) (u : Int)
    (hs : Agree fl s) (h : Subscribe_teardown fl s dbErr u = Outcome.ok s1) :
    Agree fl s1 := by
  unfold Subscribe_teardown DeleteConnection at h
  split at h
  · exact absurd h (by simp)
  · simp only [Outcome.ok.injEq] at h
    subst h
    intro v
    simp only [mapGet_mapDelete, List.mem_filter, Bool.not_eq_true', decide_eq_false_iff_not,
      true_and]
    by_cases hv : v = u
    · simp [hv]
    · simp only [if_neg hv, hv, not_false_eq_true, and_true]
      exact hs v

theorem step_agree (fl : Flags) (pb : Codec) (w w1 : World) (st : Step)
    (hs : Agree fl w.srv) (h : w.step fl pb st = some w1) : Agree fl w1.srv := by
  cases st with
  | connect u dbErr =>
    simp only [World.step] at h
    split at h
    · exact absurd h (by simp)
    · rename_i srv hc
      simp only [Option.some.injEq] at h
      subst h
      exact Subscribe_connect_agree fl _ _ _ _ _ hs hc
  | disconnect sid dbErr =>
    simp only [World.step] at h
    split at h
    · exact absurd h (by simp)
    · split at h
      · exact absurd h (by simp)
      · split at h
        · exact absurd h (by simp)
        · rename_i srv hc
          simp only [Option.some.injEq] at h
          subst h
          exact Subscribe_teardown_agree fl _ _ _ _ hs hc
      · split at h
        · exact absurd h (by simp)
        · rename_i srv hc
          simp only [Option.some.injEq] at h
          subst h
          exact Subscribe_teardown_agree fl _ _ _ _ hs hc
  | send req =>
    simp only [World.step] at h
    rw [afterSend_srv _ _ _ h, Send_srv]
    exact hs
  | relay data =>
    simp only [World.step] at h
    rw [afterSend_srv _ _ _ h, main_relayHandler, Send_srv]
    exact hs

theorem run_agree (fl : Flags) (pb : Codec) (steps : List Step) (w w1 : World)
    (hs : Agree fl w.srv) (h : World.run fl pb w steps = some w1) : Agree fl w1.srv := by
  induction steps generalizing w with
  | nil =>
    simp only [World.run, Option.some.injEq] at h
    subst h
    exact hs
  | cons st rest ih =>
    simp only [World.run] at h
    split at h
    · exact absurd h (by simp)
    · rename_i w2 hstep
      exact ih w2 (step_agree fl pb w w2 st hs hstep) h

/-! ## The router -/

/-- C1, counterexample. User 9 is in the registry of the server and the
message for 9 has the empty body: `Send` pushes nothing onto the sink of 9. -/
theorem Send_local_empty_body :
    mapGet ({ UserList := [(9, 0)], db := [(1, 9)] } : server).UserList 9 = some 0 ∧
      (Send flagsA plainCodec { UserList := [(9, 0)], db := [(1, 9)] }
        { FromUserId := 7, ToUserId := 9, Message := [] }).effects = [] := by
  decide

/-- C1, amended. For a message whose recipient is non-zero and has the sink
`c` in the registry: when the body is non-empty `Send` performs exactly one
push, of the message itself, onto `c`, and no publish; when the body is empty
it pushes and publishes nothing.  Either way the server is unchanged and the
call returns the empty response.  The drain of a session forwards the sender
id and the body of what it receives, so a session receiving from `c` writes
exactly that sender id and body to its stream. -/
theorem Send_local_delivery (fl : Flags) (pb : Codec) (s : server) (req : ChatRequest)
    (c : Chan) (hto : req.ToUserId ≠ 0) (hc : mapGet s.UserList req.ToUserId = some c) :
    Send fl pb s req =
        { srv := s, effects := if req.Message = [] then [] else [Effect.push c req],
          ret := Outcome.ok ({}, none) } ∧
      Subscribe_forward req = { FromUserId := req.FromUserId, Message := req.Message } ∧
      (∀ (w : World) (sid : Nat), w.srv = s → req.Message ≠ [] →
        w.sessions.findIdx? (fun x => decide (x.ch = c) && x.receives) = some sid →
        w.step fl pb (Step.send req) =
          some { w with
            streamed := w.streamed ++
              [(sid, { FromUserId := req.FromUserId, Message := req.Message })] }) := by
  have hsend : Send fl pb s req =
      { srv := s, effects := if req.Message = [] then [] else [Effect.push c req],
        ret := Outcome.ok ({}, none) } := by
    unfold Send
    rw [if_pos hto, hc]
    simp only []
    by_cases hm : req.Message = []
    · rw [if_pos hm, hm]
      rfl
    · rw [if_neg hm]
      have hl : req.Message.length > 0 := List.length_pos.mpr hm
      rw [if_pos hl]
  refine ⟨hsend, rfl, ?_⟩
  intro w sid hw hm hsid
  subst hw
  simp only [World.step, hsend, World.afterSend, if_neg hm, List.foldl_cons, List.foldl_nil,
    World.apply, hsid, Subscribe_forward]

/-- Witness of C1 (amended): user 9 has sink 0 and the body is `hi`. -/
theorem Send_local_delivery_witness :
    ((9 : Int) ≠ 0 ∧ mapGet [((9 : Int), 0)] 9 = some 0) ∧
      (Send flagsA plainCodec { UserList := [(9, 0)], db := [(1, 9)] }
        { FromUserId := 7, ToUserId := 9, Message := bytes "hi" }).effects =
        [Effect.push 0 { FromUserId := 7, ToUserId := 9, Message := bytes "hi" }] :=
  ⟨by decide,
    (congrArg SendResult.effects
      (Send_local_delivery flagsA plainCodec { UserList := [(9, 0)], db := [(1, 9)] }
        { FromUserId := 7, ToUserId := 9, Message := bytes "hi" } 0 (by decide) (by decide)).1).trans
      (by decide)⟩

/-- For a message whose recipient is non-zero and absent from the registry,
whatever the directory holds, `Send` pushes onto no sink and publishes exactly
one payload, the serialised message, on the outbound relay subject; the server
is unchanged and the call returns normally. -/
theorem Send_absent_publishes (fl : Flags) (pb : Codec) (s : server) (req : ChatRequest)
    (payload : List Nat) (hto : req.ToUserId ≠ 0)
    (habs : mapGet s.UserList req.ToUserId = none) (hser : pb.Marshal req = some payload) :
    Send fl pb s req =
      { srv := s, effects := [Effect.publish fl.subjectNameTo payload],
        ret := Outcome.ok ({}, none) } := by
  unfold Send
  rw [if_pos hto, habs]
  simp only [hser]

/-- C2, the code at the failing input. User 5 is in no registry and has no
row in the directory; instance A gets a message for 5.  `Send` on A does not
drop it: it publishes it on the subject of B.  The relay handler of B, where 5
is absent too, publishes it back on the subject of A, and the relay handler of
A publishes it on the subject of B again. -/
theorem Send_offline_publishes :
    mapGet ({ UserList := [], db := [] } : server).UserList 5 = none ∧
      GetServerUserIsConnecting { UserList := [], db := [] } false 5 = 0 ∧
      Send flagsA plainCodec { UserList := [], db := [] }
          { FromUserId := 7, ToUserId := 5, Message := bytes "hi" } =
        { srv := { UserList := [], db := [] },
          effects := [Effect.publish flagsB.subjectName [14, 10, 104, 105]],
          ret := Outcome.ok ({}, none) } ∧
      (main_relayHandler flagsB plainCodec { UserList := [], db := [] }
          [14, 10, 104, 105]).effects =
        [Effect.publish flagsA.subjectName [14, 10, 104, 105]] ∧
      (main_relayHandler flagsA plainCodec { UserList := [], db := [] }
          [14, 10, 104, 105]).effects =
        [Effect.publish flagsB.subjectName [14, 10, 104, 105]] := by
  decide

theorem unzigzag_zigzag (n : Int) : unzigzag (zigzag n) = n := by
  unfold unzigzag zigzag
  by_cases hn : n < 0
  · rw [if_pos hn]
    have h1 : ¬ ((2 * (-n).toNat - 1) % 2 = 0) := by omega
    rw [if_neg h1]
    omega
  · rw [if_neg hn]
    have h1 : (2 * n.toNat) % 2 = 0 := by omega
    rw [if_pos h1]
    omega

/-- With `plainCodec` every message serialises, and deserialising the payload
gives the message back. -/
theorem plainCodec_round_trip (r : ChatRequest) :
    ∃ p, plainCodec.Marshal r = some p ∧ plainCodec.Unmarshal p = r :=
  ⟨_, rfl, by
    show ({ FromUserId := unzigzag (zigzag r.FromUserId),
            ToUserId := unzigzag (zigzag r.ToUserId), Message := r.Message } : ChatRequest) = r
    rw [unzigzag_zigzag, unzigzag_zigzag]⟩

/-- C3. Relay round-trip: when the outbound subject of A is the inbound
subject of B and deserialising undoes serialising (the message serialises to
`payload`, which deserialises to the message), a message with non-zero
recipient `u` and non-empty body, with `u` absent from the registry of A and
with sink `c` in the registry of B, makes `Send` on A publish exactly one
payload, on the subject of B; the relay handler of B on that payload is `Send`
on B of the deserialised message, and it pushes onto `c` exactly one message,
with the same sender, recipient and body, and publishes nothing. -/
theorem relay_round_trip (flA flB : Flags) (pb : Codec) (sA sB : server) (req : ChatRequest)
    (c : Chan) (payload : List Nat) (htopic : flA.subjectNameTo = flB.subjectName)
    (hser : pb.Marshal req = some payload) (hde : pb.Unmarshal payload = req)
    (hto : req.ToUserId ≠ 0) (hbody : req.Message ≠ [])
    (hA : mapGet sA.UserList req.ToUserId = none)
    (hB : mapGet sB.UserList req.ToUserId = some c) :
    Send flA pb sA req =
        { srv := sA, effects := [Effect.publish flB.subjectName payload],
          ret := Outcome.ok ({}, none) } ∧
      main_relayHandler flB pb sB payload = Send flB pb sB (pb.Unmarshal payload) ∧
      ∃ got : ChatRequest,
        main_relayHandler flB pb sB payload =
          { srv := sB, effects := [Effect.push c got], ret := Outcome.ok ({}, none) } ∧
        got.FromUserId = req.FromUserId ∧ got.ToUserId = req.ToUserId ∧
        got.Message = req.Message := by
  refine ⟨?_, rfl, req, ?_, rfl, rfl, rfl⟩
  · unfold Send
    rw [if_pos hto, hA]
    simp only [hser, htopic]
  · unfold main_relayHandler Send
    rw [hde, if_pos hto, hB]
    simp only []
    rw [if_pos (List.length_pos.mpr hbody)]

/-- Witness of C3: user 7 is on A, user 9 is on B, and 7 sends `hi` to 9. -/
theorem relay_round_trip_witness :
    (flagsA.subjectNameTo = flagsB.subjectName ∧
        plainCodec.Marshal { FromUserId := 7, ToUserId := 9, Message := bytes "hi" } =
          some [14, 18, 104, 105] ∧
        plainCodec.Unmarshal [14, 18, 104, 105] =
          { FromUserId := 7, ToUserId := 9, Message := bytes "hi" } ∧
        (9 : Int) ≠ 0 ∧ bytes "hi" ≠ [] ∧
        mapGet [((7 : Int), 0)] 9 = none ∧ mapGet [((9 : Int), 0)] 9 = some 0) ∧
      Send flagsA plainCodec { UserList := [(7, 0)], db := [(1, 7), (2, 9)] }
          { FromUserId := 7, ToUserId := 9, Message := bytes "hi" } =
        { srv := { UserList := [(7, 0)], db := [(1, 7), (2, 9)] },
          effects := [Effect.publish flagsB.subjectName [14, 18, 104, 105]],
          ret := Outcome.ok ({}, none) } ∧
      ∃ got : ChatRequest,
        main_relayHandler flagsB plainCodec { UserList := [(9, 0)], db := [(1, 7), (2, 9)] }
            [14, 18, 104, 105] =
          { srv := { UserList := [(9, 0)], db := [(1, 7), (2, 9)] },
            effects := [Effect.push 0 got], ret := Outcome.ok ({}, none) } ∧
        got.FromUserId = 7 ∧ got.ToUserId = 9 ∧ got.Message = bytes "hi" :=
  have h := relay_round_trip flagsA flagsB plainCodec
    { UserList := [(7, 0)], db := [(1, 7), (2, 9)] }
    { UserList := [(9, 0)], db := [(1, 7), (2, 9)] }
    { FromUserId := 7, ToUserId := 9, Message := bytes "hi" } 0 [14, 18, 104, 105]
    (by decide) (by decide) (by decide) (by decide) (by decide) (by decide) (by decide)
  ⟨⟨by decide, by decide, by decide, by decide, by decide, by decide, by decide⟩, h.1, h.2.2⟩

/-- C4. Unaddressed messages are a no-op: for a message with `ToUserId = 0`,
whatever its sender and body and whatever the registry holds, `Send` pushes
onto no sink, publishes nothing, leaves the server (registry and directory)
unchanged and returns the empty response with no error; as a step of the
server instance it changes nothing at all. -/
theorem Send_unaddressed (fl : Flags) (pb : Codec) (s : server) (req : ChatRequest)
    (h : req.ToUserId = 0) :
    Send fl pb s req = { srv := s, effects := [], ret := Outcome.ok ({}, none) } ∧
      (∀ w : World, w.srv = s → w.step fl pb (Step.send req) = some w) := by
  have hsend : Send fl pb s req = { srv := s, effects := [], ret := Outcome.ok ({}, none) } := by
    unfold Send
    rw [if_neg (by simpa using h)]
  refine ⟨hsend, ?_⟩
  intro w hw
  subst hw
  simp only [World.step, hsend, World.afterSend, List.foldl_nil]

/-- Witness of C4: a message to user 0 while a user 0 is in the registry. -/
theorem Send_unaddressed_witness :
    ({ FromUserId := 7, ToUserId := 0, Message := bytes "hi" } : ChatRequest).ToUserId = 0 ∧
      Send flagsA plainCodec { UserList := [(0, 3)], db := [(1, 0)] }
          { FromUserId := 7, ToUserId := 0, Message := bytes "hi" } =
        { srv := { UserList := [(0, 3)], db := [(1, 0)] }, effects := [],
          ret := Outcome.ok ({}, none) } :=
  ⟨rfl,
    (Send_unaddressed flagsA plainCodec { UserList := [(0, 3)], db := [(1, 0)] }
      { FromUserId := 7, ToUserId := 0, Message := bytes "hi" } rfl).1⟩

/-! ## The session lifecycle -/

/-- C5, counterexample. User 7 connects twice to one instance: the second
call of `Subscribe` is not rejected.  After it there are two active sessions
for user 7, and when the context of the second is done the call returns `nil`. -/
theorem Subscribe_duplicate_accepted :
    ∃ w1 w2 w3 : World,
      World.run flagsA plainCodec (World.init []) [Step.connect 7 false] = some w1 ∧
      mapGet w1.srv.UserList 7 = some 0 ∧
      w1.step flagsA plainCodec (Step.connect 7 false) = some w2 ∧
      w2.sessions =
        [{ UserId := 7, ch := 0, registered := true, phase := Phase.active },
         { UserId := 7, ch := 1, registered := false, phase := Phase.active }] ∧
      w2.step flagsA plainCodec (Step.disconnect 1 false) = some w3 ∧
      w3.sessions.get? 1 =
        some { UserId := 7, ch := 1, registered := false, phase := Phase.returned none } :=
  ⟨_, _, _, rfl, by decide, rfl, by decide, rfl, by decide⟩

/-- C5, amended. When the registry already holds a sink for user `u`,
accepting a new stream for `u` is not rejected: the connect step of
`Subscribe` reports no error and leaves the registry and the directory as they
are, so the sink registered for `u` stays registered and no directory row is
inserted, and the new call becomes an active session on a channel of its own
that it does not store in the registry. -/
theorem Subscribe_duplicate_connect (fl : Flags) (pb : Codec) (w : World) (u : Int) (c : Chan)
    (dbErr : Bool) (h : mapGet w.srv.UserList u = some c) :
    Subscribe_connect fl w.srv dbErr u w.sessions.length = Outcome.ok w.srv ∧
      w.step fl pb (Step.connect u dbErr) =
        some { w with
          sessions := w.sessions ++
            [{ UserId := u, ch := w.sessions.length, registered := false,
               phase := Phase.active }] } := by
  have hc : Subscribe_connect fl w.srv dbErr u w.sessions.length = Outcome.ok w.srv := by
    unfold Subscribe_connect
    rw [h]
  refine ⟨hc, ?_⟩
  simp only [World.step, hc, h, Option.isNone_some]

/-- Witness of C5 (amended): user 7 already has sink 0. -/
theorem Subscribe_duplicate_connect_witness :
    mapGet [((7 : Int), 0)] 7 = some 0 ∧
      Subscribe_connect flagsA { UserList := [(7, 0)], db := [(1, 7)] } false 7 1 =
        Outcome.ok { UserList := [(7, 0)], db := [(1, 7)] } :=
  ⟨by decide,
    (Subscribe_duplicate_connect flagsA plainCodec
      { srv := { UserList := [(7, 0)], db := [(1, 7)] },
        sessions := [{ UserId := 7, ch := 0, registered := true, phase := Phase.active }],
        streamed := [], published := [] } 7 0 false (by decide)).1⟩

/-- C6. Presence and directory agree: starting from an empty registry and a
directory with no row for this server, after any steps (connect, disconnect,
`Send`, relay delivery) that the instance survives, a user is in the registry
if and only if the directory holds the row of this server and that user; so a
directory row of this server always has a registered local sink. -/
theorem presence_directory_agree (fl : Flags) (pb : Codec) (db0 : List (Int × Int))
    (steps : List Step) (w : World) (hdb : ∀ r ∈ db0, r.1 ≠ fl.serverId)
    (hrun : World.run fl pb (World.init db0) steps = some w) :
    Agree fl w.srv ∧
      ∀ u : Int, (fl.serverId, u) ∈ w.srv.db → ∃ c, mapGet w.srv.UserList u = some c := by
  have hinit : Agree fl (World.init db0).srv := by
    intro u
    simp only [World.init, mapGet, List.lookup_nil, Option.isSome_none, Bool.false_eq_true,
      false_iff]
    intro hmem
    exact hdb _ hmem rfl
  have hag := run_agree fl pb steps _ w hinit hrun
  refine ⟨hag, ?_⟩
  intro u hu
  exact Option.isSome_iff_exists.mp ((hag u).mpr hu)

/-- Witness of C6: users 7 and 9 connect to server 1, 7 sends to 9, and 7
disconnects; the directory starts with a row of server 2. -/
theorem presence_directory_agree_witness :
    (∀ r ∈ [((2 : Int), (5 : Int))], r.1 ≠ flagsA.serverId) ∧
      ∃ w : World,
        World.run flagsA plainCodec (World.init [(2, 5)])
          [Step.connect 7 false, Step.connect 9 false,
           Step.send { FromUserId := 7, ToUserId := 9, Message := bytes "hi" },
           Step.disconnect 0 false] = some w ∧
        Agree flagsA w.srv :=
  ⟨by decide, _, rfl,
    (presence_directory_agree flagsA plainCodec [(2, 5)]
      [Step.connect 7 false, Step.connect 9 false,
       Step.send { FromUserId := 7, ToUserId := 9, Message := bytes "hi" },
       Step.disconnect 0 false] _ (by decide) rfl).1⟩

/-- C7. Idempotent teardown: for every server state and every user `u`, the
teardown (delete `u` from the registry, then delete the directory row of this
server and `u`) raises no error and a second teardown raises none either and
changes nothing more; afterwards `u` has no registry entry and the directory
no row for this server and `u`, and every other registry entry and every
other directory row is as before. -/
theorem teardown_idempotent (fl : Flags) (s : server) (u : Int) :
    ∃ s1 : server,
      Subscribe_teardown fl s false u = Outcome.ok s1 ∧
      Subscribe_teardown fl s1 false u = Outcome.ok s1 ∧
      mapGet s1.UserList u = none ∧ (fl.serverId, u) ∉ s1.db ∧
      (∀ v : Int, v ≠ u → mapGet s1.UserList v = mapGet s.UserList v) ∧
      (∀ r : Int × Int, r ≠ (fl.serverId, u) → s1.db.count r = s.db.count r) := by
  refine ⟨_, rfl, ?_, ?_, ?_, ?_, ?_⟩
  · simp only [Subscribe_teardown, DeleteConnection, Bool.false_eq_true, if_false,
      mapDelete_mapDelete, List.filter_filter, Bool.and_self]
  · simp [mapGet_mapDelete]
  · simp [List.mem_filter]
  · intro v hv
    simp [mapGet_mapDelete, hv]
  · intro r hr
    apply List.count_filter
    obtain ⟨a, b⟩ := r
    have hr' : ¬ (a = fl.serverId ∧ b = u) := fun hc => hr (by rw [hc.1, hc.2])
    simp only [Bool.not_eq_true', decide_eq_false_iff_not]
    exact hr'

/-- C9, the code at the failing input. User 7 connects twice to one instance
and the second session disconnects: its teardown removes the registry entry
that the first session inserted, while the first session is still active. -/
theorem disconnect_removes_foreign_entry :
    ∃ w2 w3 : World,
      World.run flagsA plainCodec (World.init [])
        [Step.connect 7 false, Step.connect 7 false] = some w2 ∧
      mapGet w2.srv.UserList 7 = some 0 ∧
      w2.step flagsA plainCodec (Step.disconnect 1 false) = some w3 ∧
      w3.sessions =
        [{ UserId := 7, ch := 0, registered := true, phase := Phase.active },
         { UserId := 7, ch := 1, registered := false, phase := Phase.returned none }] ∧
      mapGet w3.srv.UserList 7 = none ∧ w3.srv.db = [] :=
  ⟨_, _, rfl, by decide, rfl, by decide, by decide, by decide⟩

end LearnNats
